import Mathlib

/-!
Verification development for the phoneme segmentation and timeline
synchronization engine of MIDI2DECTalk (src/MIDI2DECTalk.py).

The Python source is shallowly embedded: phoneme strings become `List Char`,
Python dicts become association lists, the mutable state of `main`'s event
walk becomes an explicit `WalkState` threaded through a step function, and
every fallible operation (list subscripts that can raise `IndexError`,
attribute access on the `'_'` rest sentinel that can raise `AttributeError`,
the `sys.exit()` on duration overflow) is modelled with `Except`.
Python floats that only ever hold exact decimal/tick arithmetic in this
program are modelled as `ℚ`.
-/

-- ==== Basic symbol/character machinery ====

-- The apostrophe character (codepoint 39), used as the stress marker.
def apostropheChar : Char := Char.ofNat 39

-- A phoneme symbol: Python `str`, embedded as a list of characters.
abbrev PhStr := List Char

-- ==== CONFIGURATION constants (verbatim from the source) ====

-- Default duration of consonant phonemes in milliseconds.
def DEFAULT_CONSONANT_DURATION : ℤ := 90

-- Per-consonant duration overrides (empty by default in the source).
def CONSONANT_DURATIONS : List (PhStr × ℤ) := []

-- Translates lexconvert phonemes to the targeted DECTalk phonemes.
-- Source default: {'l':'ll'}.
def PHONEME_CONVERSION : List (PhStr × PhStr) := [(['l'], ['l', 'l'])]

-- Whether to treat NOTE_ON with velocity 0 as NOTE_OFF.
def VEL_ZERO_IS_NOTE_OFF : Bool := false

-- Whether NOTE_OFF events are handled regardless of pitch.
def IGNORE_NOTE_OFF_PITCH : Bool := true

-- ==== CONSTANTS (verbatim from the source) ====

-- VOWELS list, in the source's priority order.
def VOWELS : List PhStr :=
  [['a', 'a'], ['a', 'e'], ['a', 'h'], ['a', 'o'], ['a', 'w'], ['a', 'x'],
   ['a', 'y'], ['e', 'h'], ['e', 'l'], ['e', 'y'], ['i', 'h'], ['i', 'x'],
   ['i', 'y'], ['o', 'w'], ['o', 'y'], ['r', 'r'], ['u', 'h'], ['u', 'w'],
   ['y', 'x'], ['y', 'u']]

-- CONSONANTS list, in the source's priority order.
def CONSONANTS : List PhStr :=
  [['b'], ['c', 'h'], ['d', 'x'], ['d', 'h'], ['d'], ['f'], ['g'],
   ['h', 'x'], ['q'], ['j', 'h'], ['k'], ['l', 'x'], ['l'], ['m'],
   ['n', 'x'], ['n'], ['p'], ['r', 'x'], ['r'], ['s', 'h'], ['s'],
   ['t', 'x'], ['t', 'h'], ['t'], ['v'], ['w'], ['z', 'h'], ['z']]

-- The word-boundary separator token ", ".
def COMMA_TOKEN : PhStr := [',', ' ']

-- Phoneme representing silence.
def REST : String := "_"

-- A440 in MIDI: 69; in DECTalk: 34. Their difference.
def MIDI_DECTALK_PITCH_DELTA : ℤ := 35

-- MIDI event type identifiers.
def UNUSED : ℤ := -1
def NOTE_ON : ℤ := 144
def NOTE_OFF : ℤ := 80

-- ==== TYPES ====

namespace Category

-- Category.vowel = 'V'
def vowel : Char := 'V'

-- Category.consonant = 'C'
def consonant : Char := 'C'

-- Category.comma = ','
def comma : Char := ','

end Category

-- Represents a phoneme and its category.
structure Phoneme where
  phoneme : PhStr
  category : Char
deriving DecidableEq, Repr

-- A type used for parsing and categorizing phonemes.
structure CategoryMatch where
  phoneme : Phoneme
  remainder : PhStr
deriving DecidableEq, Repr

-- A list of Phonemes (the source intends exactly one vowel; see theorems).
abbrev Syllable := List Phoneme

-- ==== Tokenizer (split_on_category_match / categorize_phonemes) ====

-- The `for token in category_tokens` loop body of split_on_category_match:
-- returns the first token that the remainder starts with, together with the
-- accumulated match text `m` (the optional stress apostrophe) and category.
def matchToken (m : PhStr) (remainder : PhStr) (category : Char) :
    List PhStr → Option CategoryMatch
  | [] => none
  | tok :: toks =>
    if tok.isPrefixOf remainder then
      some ⟨⟨m ++ tok, category⟩, remainder.drop tok.length⟩
    else
      matchToken m remainder category toks

-- Checks if phonemes starts with a token in the category list, optionally
-- consuming a leading stress apostrophe first (only when match_apostrophe).
-- The source accesses phonemes[0]; it is only ever called with a nonempty
-- string (the while-loop guard), and on the empty list this model simply
-- finds no match.
def split_on_category_match (phonemes : PhStr) (category : Char)
    (category_tokens : List PhStr) (match_apostrophe : Bool) :
    Option CategoryMatch :=
  match phonemes, match_apostrophe with
  | c :: rest, true =>
    if c = apostropheChar then
      matchToken [apostropheChar] rest category category_tokens
    else
      matchToken [] phonemes category category_tokens
  | _, _ => matchToken [] phonemes category category_tokens

-- One iteration of the categorize_phonemes while-loop: try vowels (with
-- apostrophe handling), then consonants, then the word separator.
def categorizeStep (unparsed : PhStr) : Option CategoryMatch :=
  match split_on_category_match unparsed Category.vowel VOWELS true with
  | some cm => some cm
  | none =>
    match split_on_category_match unparsed Category.consonant CONSONANTS false with
    | some cm => some cm
    | none => split_on_category_match unparsed Category.comma [COMMA_TOKEN] false

-- The categorize_phonemes while-loop. Termination: every successful step
-- consumes at least one character (all table tokens are nonempty), so
-- `phonemes.length` iterations always suffice; the fuel argument only makes
-- that measure structural, and `categorizeGo_fuel` below proves the result
-- does not depend on it. The second component models the `error(...)` report
-- emitted when no category matches: it carries the unmatched remainder.
def categorizeGo : ℕ → PhStr → List Phoneme × Option PhStr
  | _, [] => ([], none)
  | 0, u => ([], some u)
  | n + 1, u =>
    match categorizeStep u with
    | some cm =>
      let rest := categorizeGo n cm.remainder
      (cm.phoneme :: rest.1, rest.2)
    | none => ([], some u)

-- The tokenizer run: the produced tokens plus the reported failure
-- remainder (if any).
def categorizeRun (phonemes : PhStr) : List Phoneme × Option PhStr :=
  categorizeGo phonemes.length phonemes

-- Parses phonemes and categorizes them into vowels, consonants and commas.
-- The source returns just the token list; the failure report goes to stderr.
def categorize_phonemes (phonemes : PhStr) : List Phoneme :=
  (categorizeRun phonemes).1

-- ==== Segmenter (parse_phonemes) ====

-- The rolling state of the parse_phonemes loop.
structure SegState where
  parsed : List Syllable
  syllable_phonemes : List Phoneme
  consonants_between_vowels : ℕ
  vowel_present : Bool
deriving DecidableEq, Repr

-- One iteration of the parse_phonemes for-loop.
-- In the single-consonant tie-break the source writes
-- `syllable_phonemes[:-1]` and `[syllable_phonemes[-1]]`; with a vowel
-- already buffered the buffer is nonempty, and `take (len-1)` / `drop (len-1)`
-- are exactly those slices.
def segStep (st : SegState) (p : Phoneme) : SegState :=
  if p.category = Category.comma then
    { parsed :=
        st.parsed ++ (if st.syllable_phonemes ≠ [] then [st.syllable_phonemes] else []),
      syllable_phonemes := [],
      consonants_between_vowels := 0,
      vowel_present := false }
  else if p.category = Category.consonant then
    { st with
      syllable_phonemes := st.syllable_phonemes ++ [p],
      consonants_between_vowels := st.consonants_between_vowels + 1 }
  else if p.category = Category.vowel then
    if st.vowel_present then
      let buf := st.syllable_phonemes
      if st.consonants_between_vowels = 0 then
        { parsed := st.parsed ++ [buf],
          syllable_phonemes := [] ++ [p],
          consonants_between_vowels := 0,
          vowel_present := true }
      else if st.consonants_between_vowels = 1 then
        { parsed := st.parsed ++ [buf.take (buf.length - 1)],
          syllable_phonemes := buf.drop (buf.length - 1) ++ [p],
          consonants_between_vowels := 0,
          vowel_present := true }
      else
        -- num_second_word_consonants = floor(consonants_between_vowels / 2)
        { parsed :=
            st.parsed ++ [buf.take (buf.length - st.consonants_between_vowels / 2)],
          syllable_phonemes :=
            buf.drop (buf.length - st.consonants_between_vowels / 2) ++ [p],
          consonants_between_vowels := 0,
          vowel_present := true }
    else
      { st with
        syllable_phonemes := st.syllable_phonemes ++ [p],
        consonants_between_vowels := 0,
        vowel_present := true }
  else
    st

-- The final flush after the parse_phonemes loop: any non-empty buffer
-- becomes a last syllable.
def segFinish (st : SegState) : List Syllable :=
  st.parsed ++ (if st.syllable_phonemes ≠ [] then [st.syllable_phonemes] else [])

-- Parses a phoneme string into a list of Syllables: categorize, run the
-- buffering loop, and flush any non-empty final buffer.
def parse_phonemes (phonemes : PhStr) : List Syllable :=
  segFinish ((categorize_phonemes phonemes).foldl segStep ⟨[], [], 0, false⟩)

-- Number of Vowel-category tokens in a syllable.
def countVowels (syl : List Phoneme) : ℕ :=
  syl.countP (fun p => p.category == Category.vowel)

-- ==== Python numeric helpers ====

-- Python `int(x)` on a float/rational: truncation toward zero.
def pyInt (q : ℚ) : ℤ :=
  if q < 0 then q.ceil else q.floor

-- Python `round(x)` (round-half-to-even, banker's rounding).
def pyRound (q : ℚ) : ℤ :=
  let f := q.floor
  let frac := q - (f : ℚ)
  if frac < 1 / 2 then f
  else if 1 / 2 < frac then f + 1
  else if f % 2 = 0 then f else f + 1

-- ==== Renderer types ====

-- A MIDI note as the external MIDI library represents it: an octave and the
-- index of its pitch class in the library's `notes` list (so A440 is
-- octave 5, index 9). `calculate_midi_pitch` only uses these two numbers.
structure MNote where
  octave : ℤ
  note : ℤ
deriving DecidableEq, Repr

-- The value of main's `sustained_entity` variable while it is truthy:
-- either the REST string sentinel or a Note object.
inductive SustainedEntity where
  | rest : SustainedEntity
  | note : MNote → SustainedEntity
deriving DecidableEq, Repr

-- Failure modes of the run. durationOverflow models the sys.exit() in
-- translate_syllable_to_dectalk; indexError models an out-of-range
-- parsed_syllables subscript; attributeError models attribute access
-- (.octave / .note) on the '_' rest string sentinel.
inductive SyncError where
  | durationOverflow : SyncError
  | indexError : SyncError
  | attributeError : SyncError
deriving DecidableEq, Repr

-- ==== Renderer functions ====

-- Takes a Note and gets its MIDI pitch number (A440 returns 69).
def calculate_midi_pitch (note : MNote) : ℤ :=
  note.octave * 12 + note.note

-- Takes a Note and gets its DECTalk pitch number (A440 returns 34).
def calculate_dectalk_pitch (note : MNote) : ℤ :=
  calculate_midi_pitch note - MIDI_DECTALK_PITCH_DELTA

-- Translates lexconvert phonemes to phonemes supported by the target.
def get_converted_phoneme (phoneme : PhStr) : PhStr :=
  match PHONEME_CONVERSION.lookup phoneme with
  | some v => v
  | none => phoneme

-- Duration of a consonant: the override table, else the default.
def get_consonant_duration (consonant : PhStr) : ℤ :=
  match CONSONANT_DURATIONS.lookup consonant with
  | some v => v
  | none => DEFAULT_CONSONANT_DURATION

-- The consonant-duration sum computed by the first loop of
-- translate_syllable_to_dectalk (translation applied before lookup).
def total_consonant_duration (syllable : Syllable) : ℤ :=
  syllable.foldl
    (fun acc ph =>
      if ph.category = Category.consonant then
        acc + get_consonant_duration (get_converted_phoneme ph.phoneme)
      else acc)
    0

-- Renders one phoneme of the second loop of translate_syllable_to_dectalk.
-- The note parameter is whatever main passed as `sustained_entity`; when it
-- is the '_' rest sentinel, rendering a vowel evaluates `note.octave` on a
-- string and raises AttributeError.
def renderPhoneme (note : SustainedEntity) (vowel_duration : ℚ)
    (acc : String) (ph : Phoneme) : Except SyncError String :=
  let converted := get_converted_phoneme ph.phoneme
  if ph.category = Category.consonant then
    Except.ok
      (acc ++ String.mk converted ++ "<" ++
        toString (get_consonant_duration converted) ++ ">")
  else if ph.category = Category.vowel then
    match note with
    | SustainedEntity.note n =>
      Except.ok
        (acc ++ String.mk converted ++ "<" ++ toString (pyInt vowel_duration) ++
          "," ++ toString (calculate_dectalk_pitch n) ++ ">")
    | SustainedEntity.rest => Except.error SyncError.attributeError
  else
    Except.ok acc

-- Translates a syllable into the output format. The source's signature says
-- the note parameter is a MIDI Note, but main actually passes the duck-typed
-- `sustained_entity`, so the model takes a SustainedEntity. A negative vowel
-- duration hits `sys.exit()`, modelled as a fatal durationOverflow error.
def translate_syllable_to_dectalk (syllable : Syllable) (note : SustainedEntity)
    (duration : ℚ) : Except SyncError String :=
  let vowel_duration : ℚ := duration - (total_consonant_duration syllable : ℚ)
  if vowel_duration < 0 then
    Except.error SyncError.durationOverflow
  else
    syllable.foldlM (renderPhoneme note vowel_duration) ""

-- Gets a rest for the specified duration in the output format.
def get_dectalk_rest (duration : ℚ) : String :=
  REST ++ "<" ++ toString (pyInt duration) ++ ">"

-- ==== Timeline synchronizer (the event walk of main) ====

-- A timed MIDI event, with the fields the walk reads: event.header,
-- event.message.velocity, event.message.note, event.time (in ticks).
structure MidiEvent where
  header : ℤ
  velocity : ℤ
  note : MNote
  time : ℤ
deriving DecidableEq, Repr

-- Gets a MIDI event's effective event type.
def get_event_type (event : MidiEvent) : ℤ :=
  if VEL_ZERO_IS_NOTE_OFF ∧ event.header = NOTE_ON ∧ event.velocity = 0 then
    NOTE_OFF
  else if event.header = NOTE_OFF ∨ event.header = NOTE_ON then
    event.header
  else
    UNUSED

-- Python truthiness of the `first_note_ticks` variable (None or int 0 are
-- falsy).
def firstNoteTicksFalsy : Option ℤ → Bool
  | none => true
  | some t => t == 0

-- Takes a MIDI event and returns its time in milliseconds, left-shifted by
-- first_note_ticks when that variable is truthy.
def get_event_time_millis (event : MidiEvent) (tempo ticks_per_beat : ℚ)
    (first_note_ticks : Option ℤ) : ℚ :=
  let time_in_ticks : ℚ :=
    if firstNoteTicksFalsy first_note_ticks then
      (event.time : ℚ)
    else
      ((event.time - first_note_ticks.getD 0 : ℤ) : ℚ)
  60000 * (time_in_ticks / ticks_per_beat) / tempo

-- The mutable state of main's event loop. under_supply records that the
-- "more MIDI notes than syllables" error() report was emitted before the
-- break.
structure WalkState where
  output : String
  next_syllable_index : ℕ
  first_note_ticks : Option ℤ
  sustained_entity : Option SustainedEntity
  start_of_sustain : ℚ
  under_supply : Bool
deriving DecidableEq, Repr

-- The initial state of the walk.
def initialWalkState : WalkState :=
  ⟨"", 0, none, none, 0, false⟩

-- The pitch-qualification test of the note-off branch:
-- IGNORE_NOTE_OFF_PITCH or (sustained_entity.note == event.message.note.note
-- and sustained_entity.octave == event.message.note.octave). When the left
-- disjunct is false and the sustained entity is the '_' string, the
-- attribute access raises AttributeError.
def noteOffQualifies (ent : SustainedEntity) (event : MidiEvent) :
    Except SyncError Bool :=
  if IGNORE_NOTE_OFF_PITCH then
    Except.ok true
  else
    match ent with
    | SustainedEntity.rest => Except.error SyncError.attributeError
    | SustainedEntity.note n =>
      Except.ok (n.note == event.note.note ∧ n.octave == event.note.octave : Bool)

-- One iteration of main's `for event in track` loop. The Bool result is the
-- `break` flag of the under-supply branch.
def handleEvent (parsed_syllables : List Syllable) (tempo ticks_per_beat : ℚ)
    (event : MidiEvent) (st : WalkState) : Except SyncError (WalkState × Bool) :=
  let event_type := get_event_type event
  if event_type = NOTE_ON then
    let fnt :=
      if firstNoteTicksFalsy st.first_note_ticks then some event.time
      else st.first_note_ticks
    if parsed_syllables.length ≤ st.next_syllable_index then
      Except.ok ({ st with first_note_ticks := fnt, under_supply := true }, true)
    else
      let event_time_millis := get_event_time_millis event tempo ticks_per_beat fnt
      match st.sustained_entity with
      | none =>
        Except.ok
          ({ st with
              first_note_ticks := fnt,
              sustained_entity := some (SustainedEntity.note event.note) }, false)
      | some ent =>
        let duration : ℚ := (pyRound (event_time_millis - st.start_of_sustain) : ℚ)
        match ent with
        | SustainedEntity.rest =>
          Except.ok
            ({ output := st.output ++ get_dectalk_rest duration,
               next_syllable_index := st.next_syllable_index,
               first_note_ticks := fnt,
               sustained_entity := some (SustainedEntity.note event.note),
               start_of_sustain := st.start_of_sustain + duration,
               under_supply := st.under_supply }, false)
        | SustainedEntity.note n =>
          match parsed_syllables[st.next_syllable_index]? with
          | none => Except.error SyncError.indexError
          | some syl =>
            match translate_syllable_to_dectalk syl (SustainedEntity.note n) duration with
            | Except.error e => Except.error e
            | Except.ok text =>
              Except.ok
                ({ output := st.output ++ text,
                   next_syllable_index := st.next_syllable_index + 1,
                   first_note_ticks := fnt,
                   sustained_entity := some (SustainedEntity.note event.note),
                   start_of_sustain := st.start_of_sustain + duration,
                   under_supply := st.under_supply }, false)
  else if event_type = NOTE_OFF then
    match st.sustained_entity with
    | none => Except.ok (st, false)
    | some ent =>
      match noteOffQualifies ent event with
      | Except.error e => Except.error e
      | Except.ok false => Except.ok (st, false)
      | Except.ok true =>
        let event_time_millis :=
          get_event_time_millis event tempo ticks_per_beat st.first_note_ticks
        let duration : ℤ := pyInt (pyRound (event_time_millis - st.start_of_sustain) : ℚ)
        match parsed_syllables[st.next_syllable_index]? with
        | none => Except.error SyncError.indexError
        | some syl =>
          match translate_syllable_to_dectalk syl ent (duration : ℚ) with
          | Except.error e => Except.error e
          | Except.ok text =>
            Except.ok
              ({ output := st.output ++ text,
                 next_syllable_index := st.next_syllable_index + 1,
                 first_note_ticks := st.first_note_ticks,
                 sustained_entity := some SustainedEntity.rest,
                 start_of_sustain := st.start_of_sustain + (duration : ℚ),
                 under_supply := st.under_supply }, false)
  else
    Except.ok (st, false)

-- The `for event in track` loop with its break/exception control flow.
def walkEvents (parsed_syllables : List Syllable) (tempo ticks_per_beat : ℚ) :
    List MidiEvent → WalkState → Except SyncError WalkState
  | [], st => Except.ok st
  | event :: rest, st =>
    match handleEvent parsed_syllables tempo ticks_per_beat event st with
    | Except.error e => Except.error e
    | Except.ok (st2, true) => Except.ok st2
    | Except.ok (st2, false) => walkEvents parsed_syllables tempo ticks_per_beat rest st2

-- The full event walk of main, from the initial state.
def main_event_walk (parsed_syllables : List Syllable) (tempo ticks_per_beat : ℚ)
    (events : List MidiEvent) : Except SyncError WalkState :=
  walkEvents parsed_syllables tempo ticks_per_beat events initialWalkState

-- ==== Instances and reducibility for concrete evaluation ====

deriving instance DecidableEq for Except

-- Batteries marks the rational operations irreducible; concrete evaluation
-- of the model needs them unfolded.
attribute [local semireducible] Rat.add Rat.sub Rat.mul Rat.inv

-- ==== Concrete fixtures used by the scenario theorems and witnesses ====

-- The Scenario A input string "hxehl'ow, w'rrld" (apostrophes spelled via
-- apostropheChar).
def c6Input : PhStr :=
  "hxehl".toList ++ [apostropheChar] ++ "ow, w".toList ++ [apostropheChar] ++ "rrld".toList

-- The Scenario B syllable [w, 'rr, l, d].
def c7Syl : Syllable :=
  [⟨['w'], Category.consonant⟩, ⟨apostropheChar :: ['r', 'r'], Category.vowel⟩,
   ⟨['l'], Category.consonant⟩, ⟨['d'], Category.consonant⟩]

-- The Scenario B expected output w<90>'rr<230,34>ll<90>d<90>.
def c7Expected : String :=
  String.mk ("w<90>".toList ++ [apostropheChar] ++ "rr<230,34>ll<90>d<90>".toList)

-- A440: octave 5, pitch-class index 9.
def a440 : MNote := ⟨5, 9⟩

-- A second pitch, two semitones above A440.
def b440 : MNote := ⟨5, 11⟩

-- A one-vowel syllable [iy].
def iySyl : Syllable := [⟨['i', 'y'], Category.vowel⟩]

-- A NOTE_ON event at a given tick.
def onEv (t : ℤ) (n : MNote) : MidiEvent := ⟨144, 64, n, t⟩

-- A NOTE_OFF event at a given tick.
def offEv (t : ℤ) (n : MNote) : MidiEvent := ⟨80, 64, n, t⟩

-- A syllable of five consonants (post-translation durations 5 * 90 = 450).
def c8Syl : Syllable :=
  [⟨['w'], Category.consonant⟩, ⟨['l'], Category.consonant⟩, ⟨['d'], Category.consonant⟩,
   ⟨['s'], Category.consonant⟩, ⟨['t'], Category.consonant⟩]

-- Fixture for the tie-break witness: buffer head (earlier vowel included).
def c5Pre : List Phoneme := [⟨['f'], Category.consonant⟩, ⟨['r', 'r'], Category.vowel⟩]

-- Fixture for the tie-break witness: the trailing consonant run.
def c5Run : List Phoneme := [⟨['s'], Category.consonant⟩, ⟨['t'], Category.consonant⟩]

-- Fixture for the tie-break witness: the incoming second vowel.
def c5V : Phoneme := ⟨['i', 'h'], Category.vowel⟩

-- ==== Tokenizer lemmas ====

-- A successful prefix test decomposes the longer list.
theorem isPrefixOf_decomp {l₁ l₂ : PhStr} (h : l₁.isPrefixOf l₂ = true) :
    l₂ = l₁ ++ l₂.drop l₁.length := by
  induction l₁ generalizing l₂ with
  | nil => simp
  | cons a as ih =>
    cases l₂ with
    | nil => simp [List.isPrefixOf] at h
    | cons b bs =>
      simp only [List.isPrefixOf, Bool.and_eq_true, beq_iff_eq] at h
      obtain ⟨hab, hrest⟩ := h
      subst hab
      simpa using ih hrest

-- A successful matchToken returns the first matching table token.
theorem matchToken_some {m remainder : PhStr} {category : Char} {toks : List PhStr}
    {cm : CategoryMatch} (h : matchToken m remainder category toks = some cm) :
    ∃ tok ∈ toks, tok.isPrefixOf remainder = true ∧
      cm = ⟨⟨m ++ tok, category⟩, remainder.drop tok.length⟩ := by
  induction toks with
  | nil => simp [matchToken] at h
  | cons tok toks ih =>
    rw [matchToken] at h
    by_cases hp : tok.isPrefixOf remainder = true
    · rw [if_pos hp] at h
      exact ⟨tok, by simp, hp, (Option.some.inj h).symm⟩
    · rw [if_neg hp] at h
      obtain ⟨t, ht, h1, h2⟩ := ih h
      exact ⟨t, by simp [ht], h1, h2⟩

-- matchToken fails exactly when no table token matches.
theorem matchToken_none {m remainder : PhStr} {category : Char} {toks : List PhStr} :
    matchToken m remainder category toks = none ↔
      ∀ tok ∈ toks, tok.isPrefixOf remainder = false := by
  induction toks with
  | nil => simp [matchToken]
  | cons tok toks ih =>
    rw [matchToken]
    by_cases hp : tok.isPrefixOf remainder = true
    · simp [hp]
    · simp only [Bool.not_eq_true] at hp
      simp [hp, ih]

-- A successful split consumes a nonempty piece of the input.
theorem split_some_decomp {u : PhStr} {cat : Char} {toks : List PhStr} {ap : Bool}
    {cm : CategoryMatch} (hne : ∀ tok ∈ toks, tok ≠ [])
    (h : split_on_category_match u cat toks ap = some cm) :
    ∃ pre, pre ≠ [] ∧ u = pre ++ cm.remainder := by
  have finish : ∀ v : PhStr, matchToken [] v cat toks = some cm →
      ∃ pre, pre ≠ [] ∧ v = pre ++ cm.remainder := by
    intro v hv
    obtain ⟨tok, htok, hp, hcm⟩ := matchToken_some hv
    refine ⟨tok, hne tok htok, ?_⟩
    subst hcm
    simpa using isPrefixOf_decomp hp
  cases ap with
  | false =>
    simp only [split_on_category_match] at h
    exact finish u h
  | true =>
    cases u with
    | nil =>
      simp only [split_on_category_match] at h
      exact finish [] h
    | cons c rest =>
      simp only [split_on_category_match] at h
      by_cases hc : c = apostropheChar
      · rw [if_pos hc] at h
        obtain ⟨tok, htok, hp, hcm⟩ := matchToken_some h
        refine ⟨c :: tok, by simp, ?_⟩
        subst hcm
        simpa using isPrefixOf_decomp hp
      · rw [if_neg hc] at h
        exact finish (c :: rest) h

-- Every token of the three category tables is nonempty.
theorem vowels_nonempty : ∀ tok ∈ VOWELS, tok ≠ ([] : PhStr) := by decide

theorem consonants_nonempty : ∀ tok ∈ CONSONANTS, tok ≠ ([] : PhStr) := by decide

theorem comma_nonempty : ∀ tok ∈ [COMMA_TOKEN], tok ≠ ([] : PhStr) := by decide

-- A successful categorize step consumes a nonempty piece of the input.
theorem categorizeStep_some {u : PhStr} {cm : CategoryMatch}
    (h : categorizeStep u = some cm) :
    ∃ pre, pre ≠ [] ∧ u = pre ++ cm.remainder := by
  unfold categorizeStep at h
  cases hv : split_on_category_match u Category.vowel VOWELS true with
  | some cmv =>
    rw [hv] at h
    cases h
    exact split_some_decomp vowels_nonempty hv
  | none =>
    rw [hv] at h
    cases hc : split_on_category_match u Category.consonant CONSONANTS false with
    | some cmc =>
      rw [hc] at h
      cases h
      exact split_some_decomp consonants_nonempty hc
    | none =>
      rw [hc] at h
      exact split_some_decomp comma_nonempty h

-- The consumed piece being nonempty bounds the remainder's length.
theorem categorizeStep_length {u : PhStr} {cm : CategoryMatch}
    (h : categorizeStep u = some cm) : cm.remainder.length < u.length := by
  obtain ⟨pre, hne, hu⟩ := categorizeStep_some h
  subst hu
  cases pre with
  | nil => exact absurd rfl hne
  | cons a as => simp; omega

-- The fuel argument of categorizeGo is an artifact: any fuel at least the
-- input length gives the canonical run.
theorem categorizeGo_fuel (n : ℕ) :
    ∀ u : PhStr, u.length ≤ n → categorizeGo n u = categorizeGo u.length u := by
  induction n using Nat.strong_induction_on with
  | _ n ih =>
    intro u hu
    cases u with
    | nil => cases n <;> rfl
    | cons c t =>
      cases n with
      | zero => simp at hu
      | succ k =>
        simp only [List.length_cons] at hu ⊢
        cases hs : categorizeStep (c :: t) with
        | none => simp [categorizeGo, hs]
        | some cm =>
          have hlt := categorizeStep_length hs
          simp only [List.length_cons] at hlt
          have h1 : categorizeGo k cm.remainder =
              categorizeGo cm.remainder.length cm.remainder :=
            ih k (by omega) cm.remainder (by omega)
          have h2 : categorizeGo t.length cm.remainder =
              categorizeGo cm.remainder.length cm.remainder :=
            ih t.length (by omega) cm.remainder (by omega)
          simp [categorizeGo, hs, h1, h2]

-- The run on the empty string: no tokens, no failure.
theorem categorizeRun_nil : categorizeRun [] = ([], none) := rfl

-- The run where the first step fails: stop immediately, report the whole
-- remainder, produce no tokens.
theorem categorizeRun_failStop {u : PhStr} (hne : u ≠ [])
    (h : categorizeStep u = none) : categorizeRun u = ([], some u) := by
  cases u with
  | nil => exact absurd rfl hne
  | cons c t =>
    unfold categorizeRun
    simp only [List.length_cons]
    simp [categorizeGo, h]

-- The run where the first step succeeds: emit the token and continue on the
-- remainder.
theorem categorizeRun_cons {u : PhStr} {cm : CategoryMatch}
    (h : categorizeStep u = some cm) :
    categorizeRun u =
      (cm.phoneme :: (categorizeRun cm.remainder).1, (categorizeRun cm.remainder).2) := by
  cases u with
  | nil =>
    have : categorizeStep ([] : PhStr) = none := by decide
    rw [this] at h
    cases h
  | cons c t =>
    unfold categorizeRun
    have hlt := categorizeStep_length h
    simp only [List.length_cons] at hlt
    simp only [List.length_cons]
    simp [categorizeGo, h, categorizeGo_fuel t.length cm.remainder (by omega)]

-- Auxiliary induction (on an upper bound of the input length) behind the
-- tokenizer's partial-recovery property.
theorem c9_aux :
    ∀ (N : ℕ) (s r : PhStr), s.length ≤ N → (categorizeRun s).2 = some r →
      r ≠ [] ∧ (∃ pre, s = pre ++ r) ∧ categorizeStep r = none ∧
        categorizeRun r = ([], some r) := by
  intro N
  induction N with
  | zero =>
    intro s r hs hr
    have : s = [] := List.length_eq_zero.mp (Nat.le_zero.mp hs)
    subst this
    rw [categorizeRun_nil] at hr
    cases hr
  | succ N ih =>
    intro s r hs hr
    cases hstep : categorizeStep s with
    | none =>
      cases hnil : s with
      | nil =>
        subst hnil
        rw [categorizeRun_nil] at hr
        cases hr
      | cons c t =>
        subst hnil
        rw [categorizeRun_failStop (by simp) hstep] at hr
        cases hr
        exact ⟨by simp, ⟨[], rfl⟩, hstep, categorizeRun_failStop (by simp) hstep⟩
    | some cm =>
      rw [categorizeRun_cons hstep] at hr
      simp only at hr
      obtain ⟨pre, hpre, hdecomp⟩ := categorizeStep_some hstep
      have hlen : cm.remainder.length ≤ N := by
        have := categorizeStep_length hstep
        omega
      obtain ⟨hr1, ⟨pre2, hr2⟩, hr3, hr4⟩ := ih cm.remainder r hlen hr
      exact ⟨hr1, ⟨pre ++ pre2, by rw [hdecomp, hr2, List.append_assoc]⟩, hr3, hr4⟩

-- On an apostrophe-headed input, the vowel split is exactly the token scan
-- over the rest of the input with the apostrophe pre-consumed.
theorem split_vowel_apostrophe (t : PhStr) (cat : Char) (toks : List PhStr) :
    split_on_category_match (apostropheChar :: t) cat toks true =
      matchToken [apostropheChar] t cat toks := by
  simp [split_on_category_match]

-- No consonant-table token starts with an apostrophe.
theorem consonant_not_apostrophe :
    ∀ tok ∈ CONSONANTS, ∀ t : PhStr, tok.isPrefixOf (apostropheChar :: t) = false := by
  intro tok h
  fin_cases h <;> intro t <;> simp [List.isPrefixOf, apostropheChar]

-- The word separator does not start with an apostrophe.
theorem comma_not_apostrophe :
    ∀ t : PhStr, COMMA_TOKEN.isPrefixOf (apostropheChar :: t) = false := by
  intro t
  simp [List.isPrefixOf, COMMA_TOKEN, apostropheChar]

-- ==== Segmenter lemmas ====

-- The loop invariant of parse_phonemes: previously flushed syllables hold
-- at most one vowel; the buffer holds exactly one vowel iff the
-- vowel_present flag is set; and the last consonants_between_vowels buffer
-- entries (the consonants seen since the last vowel) contain no vowel.
def SegInv (st : SegState) : Prop :=
  (∀ syl ∈ st.parsed, countVowels syl ≤ 1) ∧
  countVowels st.syllable_phonemes = (if st.vowel_present then 1 else 0) ∧
  st.consonants_between_vowels ≤ st.syllable_phonemes.length ∧
  countVowels (st.syllable_phonemes.drop
    (st.syllable_phonemes.length - st.consonants_between_vowels)) = 0

theorem countVowels_append (l l' : List Phoneme) :
    countVowels (l ++ l') = countVowels l + countVowels l' := by
  simp [countVowels, List.countP_append]

theorem countVowels_single_consonant {p : Phoneme}
    (h : p.category = Category.consonant) : countVowels [p] = 0 := by
  simp [countVowels, List.countP_cons, h, Category.consonant, Category.vowel]

theorem countVowels_single_vowel {p : Phoneme}
    (h : p.category = Category.vowel) : countVowels [p] = 1 := by
  simp [countVowels, List.countP_cons, h]

theorem countVowels_take_le (l : List Phoneme) (k : ℕ) :
    countVowels (l.take k) ≤ countVowels l :=
  (List.take_sublist k l).countP_le _

theorem countVowels_drop_full (l : List Phoneme) :
    countVowels (l.drop (l.length - 0)) = 0 := by
  simp [countVowels]

theorem segStep_inv {st : SegState} (p : Phoneme) (h : SegInv st) :
    SegInv (segStep st p) := by
  obtain ⟨h1, h2, h3, h4⟩ := h
  unfold segStep
  by_cases hcomma : p.category = Category.comma
  · rw [if_pos hcomma]
    refine ⟨?_, by simp [countVowels], by simp, by simp [countVowels]⟩
    intro syl hsyl
    rcases List.mem_append.mp hsyl with hmem | hmem
    · exact h1 syl hmem
    · by_cases hne : st.syllable_phonemes ≠ []
      · rw [if_pos hne] at hmem
        rw [List.mem_singleton.mp hmem, h2]
        split <;> omega
      · rw [if_neg hne] at hmem
        cases hmem
  · rw [if_neg hcomma]
    by_cases hcons : p.category = Category.consonant
    · rw [if_pos hcons]
      refine ⟨h1, ?_, by simp; omega, ?_⟩
      · simpa [countVowels_append, countVowels_single_consonant hcons] using h2
      · have harith : st.syllable_phonemes.length + 1 - (st.consonants_between_vowels + 1) =
          st.syllable_phonemes.length - st.consonants_between_vowels := by omega
        simp only [List.length_append, List.length_singleton, harith]
        rw [List.drop_append_of_le_length (by omega), countVowels_append,
          countVowels_single_consonant hcons]
        omega
    · rw [if_neg hcons]
      by_cases hvow : p.category = Category.vowel
      · rw [if_pos hvow]
        by_cases hvp : st.vowel_present
        · rw [if_pos hvp]
          rw [if_pos hvp] at h2
          by_cases hc0 : st.consonants_between_vowels = 0
          · rw [if_pos hc0]
            refine ⟨?_, ?_, by simp, ?_⟩
            · intro syl hsyl
              rcases List.mem_append.mp hsyl with hmem | hmem
              · exact h1 syl hmem
              · rw [List.mem_singleton.mp hmem, h2]
            · simpa [countVowels_append] using countVowels_single_vowel hvow
            · simp [countVowels, List.countP_nil]
          · rw [if_neg hc0]
            by_cases hc1 : st.consonants_between_vowels = 1
            · rw [if_pos hc1]
              rw [hc1] at h4
              refine ⟨?_, ?_, by simp, ?_⟩
              · intro syl hsyl
                rcases List.mem_append.mp hsyl with hmem | hmem
                · exact h1 syl hmem
                · rw [List.mem_singleton.mp hmem]
                  calc countVowels (st.syllable_phonemes.take (st.syllable_phonemes.length - 1)) ≤
                      countVowels st.syllable_phonemes := countVowels_take_le _ _
                    _ ≤ 1 := by omega
              · simp [countVowels_append, h4, countVowels_single_vowel hvow]
              · exact countVowels_drop_full _
            · rw [if_neg hc1]
              have hk_le : st.consonants_between_vowels / 2 ≤ st.consonants_between_vowels :=
                Nat.div_le_self _ _
              have hdrop0 : countVowels (st.syllable_phonemes.drop
                  (st.syllable_phonemes.length - st.consonants_between_vowels / 2)) = 0 := by
                have heq : st.syllable_phonemes.drop
                    (st.syllable_phonemes.length - st.consonants_between_vowels / 2) =
                    (st.syllable_phonemes.drop
                      (st.syllable_phonemes.length - st.consonants_between_vowels)).drop
                      ((st.syllable_phonemes.length - st.consonants_between_vowels / 2) -
                        (st.syllable_phonemes.length - st.consonants_between_vowels)) := by
                  rw [List.drop_drop]
                  congr 1
                  omega
                rw [heq]
                have hsub := List.drop_sublist
                  ((st.syllable_phonemes.length - st.consonants_between_vowels / 2) -
                    (st.syllable_phonemes.length - st.consonants_between_vowels))
                  (st.syllable_phonemes.drop
                    (st.syllable_phonemes.length - st.consonants_between_vowels))
                have := hsub.countP_le (fun q => q.category == Category.vowel)
                simp only [countVowels] at h4 ⊢
                omega
              refine ⟨?_, ?_, by simp, ?_⟩
              · intro syl hsyl
                rcases List.mem_append.mp hsyl with hmem | hmem
                · exact h1 syl hmem
                · rw [List.mem_singleton.mp hmem]
                  calc countVowels (st.syllable_phonemes.take
                        (st.syllable_phonemes.length - st.consonants_between_vowels / 2)) ≤
                      countVowels st.syllable_phonemes := countVowels_take_le _ _
                    _ ≤ 1 := by omega
              · simp [countVowels_append, hdrop0, countVowels_single_vowel hvow]
              · exact countVowels_drop_full _
        · rw [if_neg hvp]
          rw [if_neg hvp] at h2
          refine ⟨h1, ?_, by simp, ?_⟩
          · rw [countVowels_append, h2, countVowels_single_vowel hvow, if_pos rfl]
          · simp [countVowels, List.countP_nil]
      · rw [if_neg hvow]
        exact ⟨h1, h2, h3, h4⟩

-- The invariant is preserved along the whole token fold.
theorem segFold_inv (toks : List Phoneme) :
    ∀ st : SegState, SegInv st → SegInv (toks.foldl segStep st) := by
  induction toks with
  | nil => intro st h; exact h
  | cons p toks ih => intro st h; exact ih _ (segStep_inv p h)

-- The initial state satisfies the invariant.
theorem segInv_init : SegInv ⟨[], [], 0, false⟩ := by
  refine ⟨by simp, by simp [countVowels], by simp, by simp [countVowels]⟩

-- The final flush keeps the at-most-one-vowel bound.
theorem segFinish_inv {st : SegState} (h : SegInv st) :
    ∀ syl ∈ segFinish st, countVowels syl ≤ 1 := by
  intro syl hsyl
  obtain ⟨h1, h2, _, _⟩ := h
  unfold segFinish at hsyl
  rcases List.mem_append.mp hsyl with hmem | hmem
  · exact h1 syl hmem
  · by_cases hne : st.syllable_phonemes ≠ []
    · rw [if_pos hne] at hmem
      rw [List.mem_singleton.mp hmem, h2]
      split <;> omega
    · rw [if_neg hne] at hmem
      cases hmem

/-- C5 (confirmed): at a second-vowel tie-break with the buffer split as
`pre ++ run` (`run` being the trailing `n` consonants seen since the last
vowel): with `n = 1` the single consonant starts the new syllable and the
completed syllable is the buffer minus its last element; with `n ≥ 2` the
new buffer is seeded with exactly the trailing `floor(n/2)` consonants in
original order, the completed syllable keeps the leading `ceil(n/2)` of
them, and no consonant is duplicated or dropped. -/
theorem c5_second_vowel_tie_break
    (parsed : List Syllable) (pre run : List Phoneme) (p : Phoneme) (n : ℕ)
    (hv : p.category = Category.vowel)
    (hcons : ∀ q ∈ run, q.category = Category.consonant)
    (hlen : run.length = n) :
    (n = 1 →
      segStep ⟨parsed, pre ++ run, n, true⟩ p = ⟨parsed ++ [pre], run ++ [p], 0, true⟩) ∧
    (2 ≤ n →
      segStep ⟨parsed, pre ++ run, n, true⟩ p =
        ⟨parsed ++ [pre ++ run.take (n - n / 2)], run.drop (n - n / 2) ++ [p], 0, true⟩ ∧
      run.take (n - n / 2) ++ run.drop (n - n / 2) = run ∧
      (run.drop (n - n / 2)).length = n / 2 ∧
      (run.take (n - n / 2)).length = (n + 1) / 2) := by
  have hnc : ¬ p.category = Category.comma := by
    rw [hv]; decide
  have hncons : ¬ p.category = Category.consonant := by
    rw [hv]; decide
  constructor
  · intro h1
    subst h1
    unfold segStep
    rw [if_neg hnc, if_neg hncons, if_pos hv]
    dsimp only
    rw [if_pos rfl, if_neg (by omega : ¬ (1 : ℕ) = 0), if_pos rfl]
    have hpre : pre.length = (pre ++ run).length - 1 := by
      simp [hlen]
    rw [List.take_left' hpre, List.drop_left' hpre]
  · intro h2
    have hkn : n / 2 ≤ n := Nat.div_le_self n 2
    refine ⟨?_, List.take_append_drop _ _, ?_, ?_⟩
    · unfold segStep
      rw [if_neg hnc, if_neg hncons, if_pos hv]
      dsimp only
      rw [if_pos rfl, if_neg (by omega : ¬ n = 0), if_neg (by omega : ¬ n = 1)]
      have harith : (pre ++ run).length - n / 2 = pre.length + (n - n / 2) := by
        simp [hlen]; omega
      rw [harith, List.take_append_eq_append_take, List.drop_append_eq_append_drop,
        List.take_of_length_le (by omega), List.drop_eq_nil_of_le (by omega)]
      have harith2 : pre.length + (n - n / 2) - pre.length = n - n / 2 := by omega
      rw [harith2]
      simp
    · rw [List.length_drop, hlen]
      omega
    · rw [List.length_take, hlen]
      omega

/-- C5 witness: the tie-break applied at a concrete state with two trailing
consonants. -/
theorem c5_witness :
    segStep ⟨[], c5Pre ++ c5Run, 2, true⟩ c5V =
      ⟨[c5Pre ++ c5Run.take (2 - 2 / 2)], c5Run.drop (2 - 2 / 2) ++ [c5V], 0, true⟩ ∧
    c5Run.take (2 - 2 / 2) ++ c5Run.drop (2 - 2 / 2) = c5Run ∧
    (c5Run.drop (2 - 2 / 2)).length = 2 / 2 ∧
    (c5Run.take (2 - 2 / 2)).length = (2 + 1) / 2 :=
  (c5_second_vowel_tie_break [] c5Pre c5Run c5V 2 (by decide) (by decide) (by decide)).2
    (by omega)

/-- C1 (counterexample): on the consonant-only input "d" the segmenter
produces the syllable [d] with zero Vowel tokens, refuting "every produced
Syllable contains exactly one Vowel token" as stated for all inputs. -/
theorem c1_counterexample_zero_vowel_syllable :
    ¬ (∀ syl ∈ parse_phonemes ['d'], countVowels syl = 1) := by decide

/-- C1 (amended): every Syllable produced by the segmenter contains at most
one Vowel token — never more than one — for every input phoneme string; a
syllable flushed at a word boundary or at the final end-of-input flush can
contain zero vowels when no vowel was buffered (consonant-only word). -/
theorem c1_amended_at_most_one_vowel (s : PhStr) :
    ∀ syl ∈ parse_phonemes s, countVowels syl ≤ 1 := by
  intro syl hsyl
  unfold parse_phonemes at hsyl
  exact segFinish_inv (segFold_inv _ _ segInv_init) syl hsyl

/-- C1 witness: the amended bound evaluated on the concrete input "eh". -/
theorem c1_amended_witness :
    [(⟨['e', 'h'], Category.vowel⟩ : Phoneme)] ∈ parse_phonemes ['e', 'h'] ∧
    countVowels [(⟨['e', 'h'], Category.vowel⟩ : Phoneme)] ≤ 1 :=
  ⟨by decide, c1_amended_at_most_one_vowel ['e', 'h'] _ (by decide)⟩

/-- C2 (code bug): with one syllable and events on(A,1) on(B,2) off(B,3) the
cursor is exhausted when the note-off requires a flush, and the walk raises
an out-of-range subscript (IndexError) instead of stopping and reporting the
under-supply condition; the note-on side (first conjunct) does stop
gracefully with the under-supply report and the output rendered so far kept
unchanged. -/
theorem c2_note_off_exhaustion_index_error :
    main_event_walk [iySyl] 120 500 [onEv 1 a440, onEv 2 b440, onEv 3 a440] =
      Except.ok ⟨"iy<1,34>", 1, some 1, some (SustainedEntity.note b440), 1, true⟩ ∧
    main_event_walk [iySyl] 120 500 [onEv 1 a440, onEv 2 b440, offEv 3 b440] =
      Except.error SyncError.indexError :=
  ⟨by decide, by decide⟩

/-- C3 (code bug): a note-off with nothing sustaining is a no-op (first
conjunct), but a note-off while Rest is sustaining is not: the REST string
sentinel is truthy, so the walk flushes the rest as if it were a pitch,
consuming a syllable and raising AttributeError on the sentinel's attribute
access when that syllable's vowel is rendered (second conjunct), instead of
leaving output, cursor and state unchanged. -/
theorem c3_note_off_during_rest_crashes :
    handleEvent [iySyl, iySyl] 120 500 (offEv 1 a440) initialWalkState =
      Except.ok (initialWalkState, false) ∧
    main_event_walk [iySyl, iySyl] 120 500 [onEv 1 a440, offEv 2 a440, offEv 3 a440] =
      Except.error SyncError.attributeError :=
  ⟨by decide, by decide⟩

/-- C4 (code bug): when the first note-on occurs at tick 0, first_note_tick
is recorded as 0, which is falsy, so the second note-on at tick 100
overwrites it (final state holds some 100, not some 0); the first note is
rendered with duration 0 instead of 100 ms. -/
theorem c4_first_note_tick_zero_reset :
    main_event_walk [iySyl, iySyl] 120 500 [onEv 0 a440, onEv 100 b440, offEv 200 b440] =
      Except.ok ⟨"iy<0,34>iy<100,36>", 2, some 100, some SustainedEntity.rest, 100, false⟩ := by
  decide

/-- C6 (confirmed): tokenizing then segmenting "hxehl'ow, w'rrld" yields
exactly the three syllables [hx, eh], [l, 'ow], [w, 'rr, l, d], with the
stress apostrophes attached to the matched vowel symbols. -/
theorem c6_scenario_a_segmentation :
    parse_phonemes c6Input =
      [[⟨['h', 'x'], Category.consonant⟩, ⟨['e', 'h'], Category.vowel⟩],
       [⟨['l'], Category.consonant⟩, ⟨apostropheChar :: ['o', 'w'], Category.vowel⟩],
       c7Syl] := by decide

/-- C7 (confirmed): rendering [w, 'rr, l, d] at MIDI pitch 69 with total
duration 500 ms produces exactly w<90>'rr<230,34>ll<90>d<90> (the l→ll
translation applied before rendering, the vowel getting 500 - 270 = 230),
and the rendered pitch is the MIDI number minus the fixed offset:
69 - 35 = 34. -/
theorem c7_scenario_b_render :
    translate_syllable_to_dectalk c7Syl (SustainedEntity.note a440) 500 =
      Except.ok c7Expected ∧
    (∀ n : MNote, calculate_dectalk_pitch n =
      calculate_midi_pitch n - MIDI_DECTALK_PITCH_DELTA) ∧
    calculate_midi_pitch a440 = 69 ∧ calculate_dectalk_pitch a440 = 69 - 35 :=
  ⟨by decide, fun n => rfl, by decide, by decide⟩

/-- C8 (confirmed): whenever the summed post-translation consonant durations
exceed the duration budget, rendering reports the fatal DurationOverflow
and produces no output for the syllable; conversely any successful render
had a nonnegative vowel duration, so a negative-duration vowel is never
rendered. -/
theorem c8_duration_overflow_fatal (syl : Syllable) (ent : SustainedEntity) (d : ℚ) :
    (d < (total_consonant_duration syl : ℚ) →
      translate_syllable_to_dectalk syl ent d = Except.error SyncError.durationOverflow) ∧
    (∀ out, translate_syllable_to_dectalk syl ent d = Except.ok out →
      0 ≤ d - (total_consonant_duration syl : ℚ)) := by
  constructor
  · intro h
    unfold translate_syllable_to_dectalk
    rw [if_pos (by linarith)]
  · intro out h
    unfold translate_syllable_to_dectalk at h
    by_cases hneg : d - (total_consonant_duration syl : ℚ) < 0
    · rw [if_pos hneg] at h
      cases h
    · linarith [not_lt.mp hneg]

/-- C8 witness: a five-consonant syllable (450 ms of consonants) against a
400 ms budget triggers the fatal overflow. -/
theorem c8_witness :
    translate_syllable_to_dectalk c8Syl (SustainedEntity.note a440) 400 =
      Except.error SyncError.durationOverflow :=
  (c8_duration_overflow_fatal c8Syl (SustainedEntity.note a440) 400).1 (by decide)

/-- C9 (confirmed): whenever the tokenizer reports a failure remainder r,
that remainder is nonempty, is a suffix of the input (everything before it
was consumed into the returned tokens), no category table entry matches at
r, and tokenization restarted at r contributes no further tokens — the
partial token list is exactly what was produced before the failure
position. -/
theorem c9_tokenize_failure_partial_recovery (s r : PhStr)
    (h : (categorizeRun s).2 = some r) :
    r ≠ [] ∧ (∃ pre, s = pre ++ r) ∧ categorizeStep r = none ∧
      categorizeRun r = ([], some r) :=
  c9_aux s.length s r le_rfl h

/-- C9 witness: tokenizing "eh!" fails at "!", keeping the token eh. -/
theorem c9_witness :
    (categorizeRun ['e', 'h', '!']).2 = some ['!'] ∧
    categorizeRun ['e', 'h', '!'] = ([⟨['e', 'h'], Category.vowel⟩], some ['!']) ∧
    (['!'] ≠ [] ∧ (∃ pre, ['e', 'h', '!'] = pre ++ ['!']) ∧
      categorizeStep ['!'] = none ∧ categorizeRun ['!'] = ([], some ['!'])) :=
  ⟨by decide, by decide,
    c9_tokenize_failure_partial_recovery ['e', 'h', '!'] ['!'] (by decide)⟩

/-- C10 (confirmed): an apostrophe-headed remainder tokenizes iff a
vowel-table symbol immediately follows the apostrophe: if none matches, the
step fails and the run stops there carrying that remainder (the apostrophe
is not attached to a consonant or word-boundary token and is not consumed
alone); if the step succeeds, the produced token is a Vowel whose symbol is
the apostrophe plus the matched vowel-table symbol. -/
theorem c10_apostrophe_requires_vowel (t : PhStr) :
    ((∀ v ∈ VOWELS, v.isPrefixOf t = false) →
      categorizeStep (apostropheChar :: t) = none ∧
      categorizeRun (apostropheChar :: t) = ([], some (apostropheChar :: t))) ∧
    (∀ p r, categorizeStep (apostropheChar :: t) = some ⟨p, r⟩ →
      p.category = Category.vowel ∧
      ∃ v ∈ VOWELS, t = v ++ r ∧ p.phoneme = apostropheChar :: v) := by
  have hvsplit : split_on_category_match (apostropheChar :: t) Category.vowel VOWELS true =
      matchToken [apostropheChar] t Category.vowel VOWELS :=
    split_vowel_apostrophe t _ _
  have hcsplit :
      split_on_category_match (apostropheChar :: t) Category.consonant CONSONANTS false =
        none := by
    simp only [split_on_category_match]
    exact matchToken_none.mpr (fun tok htok => consonant_not_apostrophe tok htok t)
  have hmsplit :
      split_on_category_match (apostropheChar :: t) Category.comma [COMMA_TOKEN] false =
        none := by
    simp only [split_on_category_match]
    refine matchToken_none.mpr ?_
    intro tok htok
    rw [List.mem_singleton.mp htok]
    exact comma_not_apostrophe t
  constructor
  · intro hnov
    have hv : matchToken [apostropheChar] t Category.vowel VOWELS = none :=
      matchToken_none.mpr hnov
    have hstep : categorizeStep (apostropheChar :: t) = none := by
      unfold categorizeStep
      rw [hvsplit, hv, hcsplit, hmsplit]
    exact ⟨hstep, categorizeRun_failStop (by simp) hstep⟩
  · intro p r h
    unfold categorizeStep at h
    rw [hvsplit, hcsplit, hmsplit] at h
    cases hm : matchToken [apostropheChar] t Category.vowel VOWELS with
    | none =>
      rw [hm] at h
      cases h
    | some cm =>
      rw [hm] at h
      obtain ⟨tok, htok, hp, hcm⟩ := matchToken_some hm
      have hcmeq : cm = ⟨p, r⟩ := by
        cases h
        rfl
      subst hcmeq
      cases hcm
      exact ⟨rfl, tok, htok, by simpa using isPrefixOf_decomp hp, rfl⟩

/-- C10 witness: the remainder "'b" (apostrophe then a consonant) fails to
tokenize at that position. -/
theorem c10_witness :
    (∀ v ∈ VOWELS, v.isPrefixOf ['b'] = false) ∧
    (categorizeStep (apostropheChar :: ['b']) = none ∧
      categorizeRun (apostropheChar :: ['b']) = ([], some (apostropheChar :: ['b']))) :=
  ⟨by decide, (c10_apostrophe_requires_vowel ['b']).1 (by decide)⟩
